import Mathlib

/-!
Verification of the `allAliveIPs` network scanner (`src/main.rs`) against its
natural-language specification.

The Rust program is an async TCP liveness scanner.  We give a shallow
embedding of its result-producing behaviour:

* machine integers (`u8`, `u16`, `usize`) are modelled as `Nat`, `Duration`
  as nanoseconds in `Nat`;
* the network is an oracle (`Net`) giving, for each target and attempt
  index, whether the TCP connect inside its per-port timeout succeeds, and
  the elapsed wall-clock time at that point;
* fallible operations return `Option` / `Except`; a Rust panic inside a
  spawned task (which `tokio` converts into a `JoinError`) is modelled as
  the task producing `none`;
* `f64` arithmetic in `get_stats` is abstracted to exact rationals, with
  the non-finite result of dividing by zero (NaN) modelled as `none`;
* the non-deterministic completion order of concurrent probes is modelled
  by an arbitrary reordering function, and the semaphore-bounded scheduler
  is modelled separately as a small-step transition system.
-/

namespace AllAliveIPs

/-- An IPv4 address as four octets, as in `std::net::Ipv4Addr` (a `[u8; 4]`). -/
structure Ipv4 where
  o1 : Nat
  o2 : Nat
  o3 : Nat
  o4 : Nat
deriving DecidableEq

/-- The numeric (big-endian `u32`) value of an address; `Ipv4Addr`'s `Ord`
instance compares addresses by this value. -/
def ip_key (a : Ipv4) : Nat :=
  ((a.o1 * 256 + a.o2) * 256 + a.o3) * 256 + a.o4

/-- `ScanResult` (main.rs lines 17-23): result of probing one host. -/
structure ScanResult where
  ip : Ipv4
  alive : Bool
  rtt : Option Nat
  open_port : Option Nat
deriving DecidableEq

/-- `Config` (main.rs lines 26-34): scanner configuration.  The subnet is
kept as the character list of the string field. -/
structure Config where
  subnet : List Char
  timeout : Nat
  max_concurrent : Nat
  start_ip : Nat
  end_ip : Nat
  ports : List Nat
deriving DecidableEq

/-- `Config::default` (main.rs lines 36-47); `num_cpus::get()` is a
platform-derived parameter. -/
def default_config (num_cpus : Nat) : Config :=
  { subnet := "10.0.0".toList
    timeout := 500000000
    max_concurrent := num_cpus * 8
    start_ip := 1
    end_ip := 254
    ports := [22, 23, 53, 80, 135, 139, 443, 445, 993, 995] }

/-- Builder `ip_range` (main.rs lines 80-84): stores the endpoints with no
validation whatsoever. -/
def ip_range (cfg : Config) (s e : Nat) : Config :=
  { cfg with start_ip := s, end_ip := e }

/-- Builder `ports` (main.rs lines 87-90): stores the port list with no
validation (in particular the empty list is accepted). -/
def set_ports (cfg : Config) (ps : List Nat) : Config :=
  { cfg with ports := ps }

/-- Builder `max_concurrent` (main.rs lines 68-71). -/
def set_max_concurrent (cfg : Config) (m : Nat) : Config :=
  { cfg with max_concurrent := m }

/-! ### Model of `Ipv4Addr::from_str`

`scan` and `scan_with_progress` build each target as
`format!("{}.{}", subnet, i)` and call `.parse::<Ipv4Addr>()?`.  The Rust
standard-library parser accepts exactly four groups separated by dots,
each group being 1-3 ASCII digits with no leading zero and value at most
255. -/

/-- The ASCII digit character for `d < 10`. -/
def digit_char (d : Nat) : Char := Char.ofNat (48 + d)

/-- Value of a digit string (most significant first). -/
def digits_to_nat (s : List Char) : Nat :=
  s.foldl (fun a c => a * 10 + (c.toNat - 48)) 0

/-- One dotted-quad group: 1-3 digits, no leading zero, value at most 255. -/
def parse_octet (s : List Char) : Option Nat :=
  if s.isEmpty then none
  else if ¬ s.all Char.isDigit then none
  else if 3 < s.length then none
  else if 1 < s.length ∧ s.head? = some '0' then none
  else if digits_to_nat s ≤ 255 then some (digits_to_nat s) else none

/-- Split a character list at every dot (the dots are dropped). -/
def split_on_dot : List Char → List (List Char)
  | [] => [[]]
  | c :: cs =>
    if c = '.' then [] :: split_on_dot cs
    else
      match split_on_dot cs with
      | [] => [[c]]
      | g :: gs => (c :: g) :: gs

/-- Model of `Ipv4Addr::from_str`: exactly four valid groups. -/
def ipv4_from_str (s : List Char) : Option Ipv4 :=
  match split_on_dot s with
  | [g1, g2, g3, g4] =>
    match parse_octet g1, parse_octet g2, parse_octet g3, parse_octet g4 with
    | some a, some b, some c, some d => some ⟨a, b, c, d⟩
    | _, _, _, _ => none
  | _ => none

/-- Decimal representation of `n`, most significant digit first
(fuel-based so that it is structurally recursive; `nat_repr` supplies
enough fuel). -/
def nat_repr_aux : Nat → Nat → List Char
  | 0, _ => []
  | fuel + 1, n =>
    if n < 10 then [digit_char n]
    else nat_repr_aux fuel (n / 10) ++ [digit_char (n % 10)]

/-- Decimal representation of `n`, as produced by `format!` for an
unsigned integer: no sign, no leading zeros. -/
def nat_repr (n : Nat) : List Char := nat_repr_aux (n + 1) n

/-- The target string `format!("{}.{}", subnet, i)` (main.rs lines 147, 231). -/
def ip_str (sub : List Char) (i : Nat) : List Char := sub ++ '.' :: nat_repr i

/-! ### The host prober `test_host` (main.rs lines 93-122) -/

/-- Oracle for the network environment seen by one scan: for a target
address and the index of a connection attempt within its probe,
`connects` tells whether `timeout(per_port_timeout, TcpStream::connect)`
resolved to `Ok(Ok(_))` (a per-port timeout `Err(_)` and a connection
error `Ok(Err(_))` are treated identically by the code, so one boolean
suffices), and `elapsed` gives `start_time.elapsed()` in nanoseconds at
the moment that attempt succeeded. -/
structure Net where
  connects : Ipv4 → Nat → Nat → Bool
  elapsed : Ipv4 → Nat → Nat

/-- `per_port_timeout = self.config.timeout / self.config.ports.len()`
(main.rs line 97).  In Rust this `Duration / u32` division panics when the
port list is empty; `test_host` returns `none` in that case. -/
def per_port_timeout (cfg : Config) : Nat := cfg.timeout / cfg.ports.length

/-- The port loop of `test_host` (main.rs lines 99-121): try each port in
list order; on the first successful connect return alive with that port
and the elapsed time; if the loop exhausts the list return the dead
result. -/
def test_host_go (net : Net) (ip : Ipv4) : Nat → List Nat → ScanResult
  | _, [] => ⟨ip, false, none, none⟩
  | idx, p :: rest =>
    if net.connects ip idx p then
      ⟨ip, true, some (net.elapsed ip idx), some p⟩
    else test_host_go net ip (idx + 1) rest

/-- `test_host` (main.rs lines 93-122).  Computing `per_port_timeout`
divides the timeout by `ports.len()`, which panics on an empty port list
(modelled as `none`); otherwise the port loop runs and always produces a
result. -/
def test_host (net : Net) (cfg : Config) (ip : Ipv4) : Option ScanResult :=
  if cfg.ports.isEmpty then none
  else some (test_host_go net ip 0 cfg.ports)

/-! ### The scan pipeline (main.rs lines 125-277) -/

/-- Errors a scan can return: `AddrParseError` propagated by the `?` on
`ip_str.parse()` (main.rs lines 148, 232), and the `JoinError` produced
when a spawned probe task panicked (surfaced by the
`collect::<Result<Vec<_>, _>>()` on `join_all` in `scan` and
`scan_hosts`). -/
inductive ScanError where
  | invalidAddr : List Char → ScanError
  | joinErr : ScanError
deriving DecidableEq

/-- The enumerated final octets: `for i in start_ip..=end_ip` (main.rs
lines 146, 230); empty when `start_ip > end_ip`. -/
def octets (cfg : Config) : List Nat :=
  List.range' cfg.start_ip (cfg.end_ip + 1 - cfg.start_ip)

/-- The parsing done in the spawn loop: each target string is parsed with
`?`, so the first failure aborts `scan` with that error. -/
def parse_targets (sub : List Char) : List Nat → Except ScanError (List Ipv4)
  | [] => .ok []
  | i :: rest =>
    match ipv4_from_str (ip_str sub i) with
    | none => .error (.invalidAddr (ip_str sub i))
    | some a =>
      match parse_targets sub rest with
      | .error e => .error e
      | .ok l => .ok (a :: l)

/-- `join_all(tasks).await.into_iter().collect::<Result<Vec<_>, _>>()`:
the tasks' outcomes in spawn order; the first panicked task (`none`)
yields a `JoinError`. -/
def collect_join : List (Option ScanResult) → Except ScanError (List ScanResult)
  | [] => .ok []
  | none :: _ => .error .joinErr
  | some r :: rest =>
    match collect_join rest with
    | .error e => .error e
    | .ok l => .ok (r :: l)

/-- Ordering used by `results.sort_by_key(|r| r.ip)`: comparison of the
addresses' numeric values. -/
def result_le (r s : ScanResult) : Prop := ip_key r.ip ≤ ip_key s.ip

instance : DecidableRel result_le := fun r s => Nat.decLe (ip_key r.ip) (ip_key s.ip)

instance : IsTotal ScanResult result_le := ⟨fun _ _ => Nat.le_total _ _⟩

instance : IsTrans ScanResult result_le := ⟨fun _ _ _ => Nat.le_trans⟩

/-- `results.sort_by_key(|r| r.ip)` (main.rs lines 210, 250, 274): a
stable sort by address; stable sorting is a unique function of the input,
realised here by insertion sort. -/
def sort_by_ip (rs : List ScanResult) : List ScanResult :=
  List.insertionSort result_le rs

/-- `scan` (main.rs lines 226-253): parse and spawn one probe task per
enumerated octet (first parse failure aborts with that error), await all
tasks (a panicked task aborts with a join error), sort by address. -/
def scan (net : Net) (cfg : Config) : Except ScanError (List ScanResult) :=
  match parse_targets cfg.subnet (octets cfg) with
  | .error e => .error e
  | .ok ips =>
    match collect_join (ips.map (test_host net cfg)) with
    | .error e => .error e
    | .ok rs => .ok (sort_by_ip rs)

/-- `scan_with_progress` (main.rs lines 125-223): same spawn loop, but
results arrive through an unbounded channel in completion order
(modelled by the arbitrary reordering `order`), tasks that panic simply
never send (`let _ = join_all(tasks)` discards join errors, so they are
dropped from the output), and the collected list is sorted by address.
The progress counters and console printing do not affect the returned
value and are omitted. -/
def scan_with_progress (net : Net) (order : List ScanResult → List ScanResult)
    (cfg : Config) : Except ScanError (List ScanResult) :=
  match parse_targets cfg.subnet (octets cfg) with
  | .error e => .error e
  | .ok ips =>
    .ok (sort_by_ip (order ((ips.map (test_host net cfg)).filterMap id)))

/-- `scan_hosts` (main.rs lines 256-277): one probe task per given
address (no parsing), await all, sort by address. -/
def scan_hosts (net : Net) (cfg : Config) (hosts : List Ipv4) :
    Except ScanError (List ScanResult) :=
  match collect_join (hosts.map (test_host net cfg)) with
  | .error e => .error e
  | .ok rs => .ok (sort_by_ip rs)

/-! ### The result aggregator (main.rs lines 290-327) -/

/-- `alive_ips` (main.rs lines 292-297). -/
def alive_ips (results : List ScanResult) : List Ipv4 :=
  (results.filter (·.alive)).map (·.ip)

/-- `ScanStats` (main.rs lines 321-327).  `success_rate` is an `f64` in
the source, abstracted here to an exact rational; the non-finite value
obtained by dividing by a zero total (NaN) is modelled as `none`. -/
structure ScanStats where
  total_hosts : Nat
  alive_hosts : Nat
  success_rate : Option ℚ
  average_rtt : Option Nat
deriving DecidableEq

/-- `f64` division abstracted to rationals: division by zero produces a
non-finite value (here `0.0 / 0.0 = NaN`), modelled as `none`. -/
def f64_div (x y : ℚ) : Option ℚ := if y = 0 then none else some (x / y)

/-- `get_stats` (main.rs lines 300-318).  Note that `total_rtt` sums
`r.rtt` over all results whose `rtt` field is set, not over the alive
ones, and divides by the alive count; `Duration / u32` truncates at
nanosecond granularity, i.e. `Nat` division. -/
def get_stats (results : List ScanResult) : ScanStats :=
  let total := results.length
  let alive := (results.filter (·.alive)).length
  let avg_rtt :=
    if 0 < alive then some ((results.filterMap (·.rtt)).sum / alive)
    else none
  { total_hosts := total
    alive_hosts := alive
    success_rate := (f64_div alive total).map (· * 100)
    average_rtt := avg_rtt }

/-- Written from the spec, for comparison with `get_stats`: the mean of
the round-trip times of only the alive entries (`average_rtt` = mean of
only the alive entries' RTTs), at the same nanosecond granularity. -/
def spec_mean_alive_rtt (results : List ScanResult) : Option Nat :=
  let al := results.filter (·.alive)
  if 0 < al.length then some ((al.filterMap (·.rtt)).sum / al.length)
  else none

/-! ### The concurrency limiter (main.rs lines 134, 157-192, 227, 238,
257, 265)

Each spawned task awaits `semaphore.acquire()`, holds the permit while
`test_host` runs and while it updates counters and sends its result, and
releases it (permit drop) when the task body ends.  We model the
interleaving of the tasks as a small-step transition system over the
semaphore's permit count and each task's phase. -/

/-- Phase of one spawned probe task: waiting on `semaphore.acquire()`;
permit acquired but `test_host` not yet entered; inside `test_host`;
finished `test_host` but still holding the permit (counter updates,
channel send, progress printing); task body ended, permit dropped. -/
inductive Phase where
  | pending
  | acquired
  | probing
  | bookkeeping
  | finished
deriving DecidableEq

/-- Scheduler state: free permits of the semaphore plus the phase of each
spawned task. -/
structure SchedState where
  permits : Nat
  tasks : List Phase
deriving DecidableEq

/-- One scheduling step.  `acquire` fires only when a permit is free
(`permits = p + 1`) and takes it; `release` returns it.  The probe body
itself never touches the semaphore. -/
inductive SchedStep : SchedState → SchedState → Prop where
  | acquire (p : Nat) (l : List Phase) (k : Nat) (hk : l[k]? = some .pending) :
      SchedStep ⟨p + 1, l⟩ ⟨p, l.set k .acquired⟩
  | enter_probe (p : Nat) (l : List Phase) (k : Nat) (hk : l[k]? = some .acquired) :
      SchedStep ⟨p, l⟩ ⟨p, l.set k .probing⟩
  | exit_probe (p : Nat) (l : List Phase) (k : Nat) (hk : l[k]? = some .probing) :
      SchedStep ⟨p, l⟩ ⟨p, l.set k .bookkeeping⟩
  | release (p : Nat) (l : List Phase) (k : Nat) (hk : l[k]? = some .bookkeeping) :
      SchedStep ⟨p, l⟩ ⟨p + 1, l.set k .finished⟩

/-- States reachable during a scan that spawned `m` probe tasks: the
semaphore starts with `max_concurrent` permits
(`Semaphore::new(self.config.max_concurrent)`) and every task starts
waiting to acquire. -/
inductive SchedReachable (cfg : Config) (m : Nat) : SchedState → Prop where
  | init : SchedReachable cfg m ⟨cfg.max_concurrent, List.replicate m .pending⟩
  | step {s s' : SchedState} :
      SchedReachable cfg m s → SchedStep s s' → SchedReachable cfg m s'

/-- A task in these phases has acquired the permit and not yet released it. -/
def holds_permit : Phase → Bool
  | .acquired | .probing | .bookkeeping => true
  | _ => false

/-- A task in this phase has started `test_host` and not yet finished it. -/
def in_probe : Phase → Bool
  | .probing => true
  | _ => false

/-- Number of tasks currently inside `test_host`. -/
def probing_count (s : SchedState) : Nat := s.tasks.countP in_probe

/-! ### Concrete fixtures used to witness the theorems below -/

/-- A network where no connection attempt ever succeeds. -/
def net_none : Net := ⟨fun _ _ _ => false, fun _ _ => 0⟩

/-- A network where attempt zero fails and every later attempt succeeds
after seven nanoseconds. -/
def net_second : Net := ⟨fun _ idx _ => decide (1 ≤ idx), fun _ _ => 7⟩

/-- A three-target configuration on subnet string `10.0.0`, octets one to
three. -/
def cfg_small : Config :=
  { subnet := "10.0.0".toList
    timeout := 300000000
    max_concurrent := 4
    start_ip := 1
    end_ip := 3
    ports := [80, 443] }

/-- A configuration whose start octet exceeds its end octet. -/
def cfg_reversed : Config := { cfg_small with start_ip := 5, end_ip := 3 }

/-- A configuration with an empty port list and a single target. -/
def cfg_no_ports : Config := { cfg_small with end_ip := 1, ports := [] }

/-- A configuration with three ports, to exercise first-match-wins. -/
def cfg_three_ports : Config := { cfg_small with ports := [22, 80, 443] }

/-- A single-permit configuration for the scheduler witness. -/
def cfg_serial : Config := { cfg_small with max_concurrent := 1 }

/-- A result set violating the scanner invariant: a dead entry carrying a
round-trip time. -/
def results_mixed : List ScanResult :=
  [⟨⟨10, 0, 0, 1⟩, false, some 100, none⟩,
   ⟨⟨10, 0, 0, 2⟩, true, some 50, some 80⟩]

/-- A well-formed result set: one alive entry of two. -/
def results_ok : List ScanResult :=
  [⟨⟨10, 0, 0, 1⟩, true, some 10, some 80⟩,
   ⟨⟨10, 0, 0, 2⟩, false, none, none⟩]

/-- The all-dead report of scanning `cfg_small` against `net_none`. -/
def dead_small : List ScanResult :=
  [⟨⟨10, 0, 0, 1⟩, false, none, none⟩,
   ⟨⟨10, 0, 0, 2⟩, false, none, none⟩,
   ⟨⟨10, 0, 0, 3⟩, false, none, none⟩]

/-- The all-dead report of probing the single host `8.8.8.8`. -/
def dead_host8 : List ScanResult := [⟨⟨8, 8, 8, 8⟩, false, none, none⟩]

/-! ## Lemmas about the host prober -/

/-- The port loop reports the target it was given. -/
theorem test_host_go_ip (net : Net) (ip : Ipv4) :
    ∀ (idx : Nat) (ps : List Nat), (test_host_go net ip idx ps).ip = ip := by
  intro idx ps
  induction ps generalizing idx with
  | nil => rfl
  | cons p rest ih =>
    simp only [test_host_go]
    by_cases h : net.connects ip idx p = true
    · simp [h]
    · simp only [Bool.not_eq_true] at h
      simp [h, ih]

/-- The port loop's result has its optional fields set exactly when it is
alive. -/
theorem test_host_go_fields (net : Net) (ip : Ipv4) :
    ∀ (idx : Nat) (ps : List Nat),
      (test_host_go net ip idx ps).open_port.isSome = (test_host_go net ip idx ps).alive ∧
      (test_host_go net ip idx ps).rtt.isSome = (test_host_go net ip idx ps).alive := by
  intro idx ps
  induction ps generalizing idx with
  | nil => exact ⟨rfl, rfl⟩
  | cons p rest ih =>
    simp only [test_host_go]
    by_cases h : net.connects ip idx p = true
    · simp [h]
    · simp only [Bool.not_eq_true] at h
      simp [h, ih]

/-- If every attempt in the loop fails, the dead result is returned. -/
theorem test_host_go_all_fail (net : Net) (ip : Ipv4) :
    ∀ (ps : List Nat) (idx : Nat),
      (∀ k (hk : k < ps.length), net.connects ip (idx + k) (ps.get ⟨k, hk⟩) = false) →
      test_host_go net ip idx ps = ⟨ip, false, none, none⟩ := by
  intro ps
  induction ps with
  | nil => intro idx _; rfl
  | cons p rest ih =>
    intro idx hall
    have h0 : net.connects ip idx p = false := by
      have := hall 0 (Nat.succ_pos _)
      simpa using this
    simp only [test_host_go, h0, Bool.false_eq_true, if_false]
    apply ih
    intro k hk
    have := hall (k + 1) (Nat.succ_lt_succ hk)
    simpa [Nat.add_assoc, Nat.add_comm 1 k] using this

/-- If attempt `j` is the first success, the loop stops there and
reports that very port together with the elapsed time of attempt `j`. -/
theorem test_host_go_first (net : Net) (ip : Ipv4) :
    ∀ (ps : List Nat) (idx j : Nat) (hj : j < ps.length),
      net.connects ip (idx + j) (ps.get ⟨j, hj⟩) = true →
      (∀ k (hk : k < j), net.connects ip (idx + k) (ps.get ⟨k, Nat.lt_trans hk hj⟩) = false) →
      test_host_go net ip idx ps =
        ⟨ip, true, some (net.elapsed ip (idx + j)), some (ps.get ⟨j, hj⟩)⟩ := by
  intro ps
  induction ps with
  | nil => intro idx j hj; exact absurd hj (Nat.not_lt_zero _)
  | cons p rest ih =>
    intro idx j hj hsucc hfirst
    cases j with
    | zero =>
      simp only [List.get] at hsucc
      simp only [Nat.add_zero] at hsucc
      simp [test_host_go, hsucc]
    | succ j' =>
      have h0 : net.connects ip idx p = false := by
        have := hfirst 0 (Nat.succ_pos _)
        simpa using this
      simp only [test_host_go, h0, Bool.false_eq_true, if_false]
      have hj' : j' < rest.length := Nat.lt_of_succ_lt_succ hj
      have hs' : net.connects ip (idx + 1 + j') (rest.get ⟨j', hj'⟩) = true := by
        have : idx + 1 + j' = idx + (j' + 1) := by omega
        rw [this]
        exact hsucc
      have hf' : ∀ k (hk : k < j'),
          net.connects ip (idx + 1 + k) (rest.get ⟨k, Nat.lt_trans hk hj'⟩) = false := by
        intro k hk
        have := hfirst (k + 1) (Nat.succ_lt_succ hk)
        have heq : idx + 1 + k = idx + (k + 1) := by omega
        rw [heq]
        exact this
      have := ih (idx + 1) j' hj' hs' hf'
      rw [this]
      have : idx + 1 + j' = idx + (j' + 1) := by omega
      rw [this]
      rfl

/-! ## Lemmas about decimal rendering and IPv4 parsing -/

/-- The fuel argument of `nat_repr_aux` is irrelevant once sufficient. -/
theorem nat_repr_aux_fuel (n : Nat) :
    ∀ f1 f2, n < f1 → n < f2 → nat_repr_aux f1 n = nat_repr_aux f2 n := by
  induction n using Nat.strong_induction_on with
  | _ n ih =>
    intro f1 f2 h1 h2
    cases f1 with
    | zero => omega
    | succ g1 =>
      cases f2 with
      | zero => omega
      | succ g2 =>
        by_cases h : n < 10
        · simp [nat_repr_aux, h]
        · have hd : n / 10 < n := Nat.div_lt_self (by omega) (by omega)
          simp only [nat_repr_aux, h, if_false]
          rw [ih (n / 10) hd g1 g2 (by omega) (by omega)]

/-- Rendering of a one-digit number. -/
theorem nat_repr_eq_low {n : Nat} (h : n < 10) : nat_repr n = [digit_char n] := by
  simp [nat_repr, nat_repr_aux, h]

/-- Rendering of a multi-digit number peels off the last digit. -/
theorem nat_repr_eq_high (n : Nat) (h : 10 ≤ n) :
    nat_repr n = nat_repr (n / 10) ++ [digit_char (n % 10)] := by
  have hd : n / 10 < n := Nat.div_lt_self (by omega) (by omega)
  have hn : ¬ n < 10 := by omega
  show nat_repr_aux (n + 1) n = _
  simp only [nat_repr_aux, hn, if_false]
  rw [nat_repr_aux_fuel (n / 10) n (n / 10 + 1) (by omega) (by omega)]
  rfl

/-- Code point of a digit character. -/
theorem toNat_digit_char (d : Nat) (h : d < 10) : (digit_char d).toNat = 48 + d := by
  interval_cases d <;> decide

/-- Digit characters satisfy `Char.isDigit`. -/
theorem digit_char_isDigit (d : Nat) (h : d < 10) : (digit_char d).isDigit = true := by
  interval_cases d <;> decide

/-- A digit character is not a dot. -/
theorem digit_char_ne_dot (d : Nat) (h : d < 10) : digit_char d ≠ '.' := by
  interval_cases d <;> decide

/-- A nonzero digit character is not the zero character. -/
theorem digit_char_ne_zero (d : Nat) (h1 : 1 ≤ d) (h2 : d < 10) : digit_char d ≠ '0' := by
  interval_cases d <;> decide

/-- Appending a digit multiplies the value by ten and adds it. -/
theorem digits_to_nat_append (xs : List Char) (c : Char) :
    digits_to_nat (xs ++ [c]) = digits_to_nat xs * 10 + (c.toNat - 48) := by
  simp [digits_to_nat, List.foldl_append]

/-- Reading back the decimal rendering gives the number. -/
theorem digits_to_nat_nat_repr (n : Nat) : digits_to_nat (nat_repr n) = n := by
  induction n using Nat.strong_induction_on with
  | _ n ih =>
    by_cases h : n < 10
    · rw [nat_repr_eq_low h]
      simp only [digits_to_nat, List.foldl_cons, List.foldl_nil]
      rw [toNat_digit_char n h]
      omega
    · have hd : n / 10 < n := Nat.div_lt_self (by omega) (by omega)
      rw [nat_repr_eq_high n (by omega), digits_to_nat_append, ih (n / 10) hd,
        toNat_digit_char (n % 10) (Nat.mod_lt _ (by omega))]
      omega

/-- A decimal rendering is never empty. -/
theorem nat_repr_ne_nil (n : Nat) : nat_repr n ≠ [] := by
  by_cases h : n < 10
  · rw [nat_repr_eq_low h]; simp
  · rw [nat_repr_eq_high n (by omega)]; simp

/-- Every character of a decimal rendering is a digit character. -/
theorem mem_nat_repr (n : Nat) : ∀ c ∈ nat_repr n, ∃ d, d < 10 ∧ c = digit_char d := by
  induction n using Nat.strong_induction_on with
  | _ n ih =>
    intro c hc
    by_cases h : n < 10
    · rw [nat_repr_eq_low h] at hc
      simp only [List.mem_singleton] at hc
      exact ⟨n, h, hc⟩
    · rw [nat_repr_eq_high n (by omega), List.mem_append] at hc
      rcases hc with hc | hc
      · exact ih (n / 10) (Nat.div_lt_self (by omega) (by omega)) c hc
      · simp only [List.mem_singleton] at hc
        exact ⟨n % 10, Nat.mod_lt _ (by omega), hc⟩

/-- A decimal rendering contains no dot. -/
theorem nat_repr_no_dot (n : Nat) : ∀ c ∈ nat_repr n, c ≠ '.' := by
  intro c hc
  obtain ⟨d, hd, rfl⟩ := mem_nat_repr n c hc
  exact digit_char_ne_dot d hd

/-- A decimal rendering consists of digits. -/
theorem nat_repr_all_digit (n : Nat) : (nat_repr n).all Char.isDigit = true := by
  rw [List.all_eq_true]
  intro c hc
  obtain ⟨d, hd, rfl⟩ := mem_nat_repr n c hc
  exact digit_char_isDigit d hd

/-- A decimal rendering of a nonzero number has no leading zero. -/
theorem nat_repr_head_ne_zero (n : Nat) : n ≠ 0 → (nat_repr n).head? ≠ some '0' := by
  induction n using Nat.strong_induction_on with
  | _ n ih =>
    intro hn
    by_cases h : n < 10
    · rw [nat_repr_eq_low h]
      simp only [List.head?_cons]
      intro hcontra
      have : digit_char n = '0' := by injection hcontra
      exact digit_char_ne_zero n (by omega) h this
    · rw [nat_repr_eq_high n (by omega)]
      obtain ⟨a, as, he⟩ := List.exists_cons_of_ne_nil (nat_repr_ne_nil (n / 10))
      rw [he]
      simp only [List.cons_append, List.head?_cons]
      have := ih (n / 10) (Nat.div_lt_self (by omega) (by omega)) (by omega)
      rw [he] at this
      simpa using this

/-- Numbers below one hundred render in at most two characters. -/
theorem nat_repr_length_le2 (n : Nat) (h : n < 100) : (nat_repr n).length ≤ 2 := by
  by_cases h1 : n < 10
  · rw [nat_repr_eq_low h1]; simp
  · rw [nat_repr_eq_high n (by omega), List.length_append]
    have h2 : n / 10 < 10 := by omega
    rw [nat_repr_eq_low h2]
    simp

/-- Numbers below one thousand render in at most three characters. -/
theorem nat_repr_length_le3 (n : Nat) (h : n < 1000) : (nat_repr n).length ≤ 3 := by
  by_cases h1 : n < 10
  · rw [nat_repr_eq_low h1]; simp
  · rw [nat_repr_eq_high n (by omega), List.length_append]
    have := nat_repr_length_le2 (n / 10) (by omega)
    simp only [List.length_singleton]
    omega

/-- Parsing the decimal rendering of an in-range octet succeeds. -/
theorem parse_octet_nat_repr (n : Nat) (h : n ≤ 255) : parse_octet (nat_repr n) = some n := by
  have hne : (nat_repr n).isEmpty = false := by
    rw [Bool.eq_false_iff]
    intro hcontra
    exact nat_repr_ne_nil n (List.isEmpty_iff.mp hcontra)
  have hlen : ¬ 3 < (nat_repr n).length := by
    have := nat_repr_length_le3 n (by omega)
    omega
  have hlead : ¬ (1 < (nat_repr n).length ∧ (nat_repr n).head? = some '0') := by
    rintro ⟨hl, hh⟩
    by_cases h10 : n < 10
    · rw [nat_repr_eq_low h10] at hl
      simp at hl
    · exact nat_repr_head_ne_zero n (by omega) hh
  have hval : digits_to_nat (nat_repr n) ≤ 255 := by
    rw [digits_to_nat_nat_repr]; exact h
  simp only [parse_octet, hne, Bool.false_eq_true, if_false, nat_repr_all_digit,
    not_true, hlen, hlead, digits_to_nat_nat_repr]
  simp [h]

/-- A successful octet parse returns the digit value of the group. -/
theorem parse_octet_eq (s : List Char) (v : Nat) (h : parse_octet s = some v) :
    v = digits_to_nat s := by
  unfold parse_octet at h
  repeat' split at h
  all_goals simp_all

/-- Splitting never yields the empty list of groups. -/
theorem split_on_dot_ne_nil : ∀ l : List Char, split_on_dot l ≠ [] := by
  intro l
  cases l with
  | nil => simp [split_on_dot]
  | cons c cs =>
    simp only [split_on_dot]
    by_cases h : c = '.'
    · simp [h]
    · simp only [h, if_false]
      cases hs : split_on_dot cs with
      | nil => simp
      | cons g gs => simp

/-- Splitting distributes over a dot placed between two pieces. -/
theorem split_on_dot_append (xs ys : List Char) :
    split_on_dot (xs ++ '.' :: ys) = split_on_dot xs ++ split_on_dot ys := by
  induction xs with
  | nil => simp [split_on_dot]
  | cons c cs ih =>
    by_cases h : c = '.'
    · subst h
      simp [split_on_dot, ih]
    · simp only [List.cons_append, split_on_dot, h, if_false, List.append_eq]
      rw [ih]
      cases hs : split_on_dot cs with
      | nil => exact absurd hs (split_on_dot_ne_nil cs)
      | cons g gs => simp [hs]

/-- A dot-free piece is a single group. -/
theorem split_on_dot_no_dot (zs : List Char) (h : ∀ c ∈ zs, c ≠ '.') :
    split_on_dot zs = [zs] := by
  induction zs with
  | nil => rfl
  | cons c cs ih =>
    have hc : c ≠ '.' := h c (by simp)
    have ih' := ih (fun x hx => h x (by simp [hx]))
    simp only [split_on_dot, hc, if_false, ih']

/-- Splitting the target string `subnet ++ "." ++ i` puts the rendering of
`i` in a group of its own after the subnet's groups. -/
theorem split_ip_str (sub : List Char) (i : Nat) :
    split_on_dot (ip_str sub i) = split_on_dot sub ++ [nat_repr i] := by
  rw [ip_str, split_on_dot_append, split_on_dot_no_dot (nat_repr i) (nat_repr_no_dot i)]

/-- A successfully parsed target string has the enumerated octet as its
last octet: the loop variable is recoverable from the parsed address. -/
theorem ipv4_from_str_o4 (sub : List Char) (i : Nat) (a : Ipv4)
    (h : ipv4_from_str (ip_str sub i) = some a) : a.o4 = i := by
  unfold ipv4_from_str at h
  rw [split_ip_str] at h
  cases hs : split_on_dot sub with
  | nil => rw [hs] at h; simp at h
  | cons x1 L1 =>
    cases L1 with
    | nil => rw [hs] at h; simp at h
    | cons x2 L2 =>
      cases L2 with
      | nil => rw [hs] at h; simp at h
      | cons x3 L3 =>
        cases L3 with
        | nil =>
          rw [hs] at h
          simp only [List.cons_append, List.nil_append] at h
          cases h1 : parse_octet x1 with
          | none => rw [h1] at h; simp at h
          | some v1 =>
            rw [h1] at h
            cases h2 : parse_octet x2 with
            | none => rw [h2] at h; simp at h
            | some v2 =>
              rw [h2] at h
              cases h3 : parse_octet x3 with
              | none => rw [h3] at h; simp at h
              | some v3 =>
                rw [h3] at h
                cases h4 : parse_octet (nat_repr i) with
                | none => rw [h4] at h; simp at h
                | some v4 =>
                  rw [h4] at h
                  simp only [Option.some.injEq] at h
                  have hv4 : v4 = i := by
                    have := parse_octet_eq (nat_repr i) v4 h4
                    rw [digits_to_nat_nat_repr] at this
                    exact this
                  rw [← h, hv4]
        | cons x4 L4 =>
          rw [hs] at h
          obtain ⟨y, ys, hy⟩ : ∃ y ys, L4 ++ [nat_repr i] = y :: ys := by
            cases L4 with
            | nil => exact ⟨nat_repr i, [], rfl⟩
            | cons z zs => exact ⟨z, zs ++ [nat_repr i], by simp⟩
          simp only [List.cons_append, hy] at h
          simp at h

/-- The ok value of `parse_targets` consists of addresses whose last
octets are exactly the enumerated octets, in order. -/
theorem parse_targets_ok_map (sub : List Char) :
    ∀ (octs : List Nat) (ips : List Ipv4),
      parse_targets sub octs = .ok ips → ips.map Ipv4.o4 = octs := by
  intro octs
  induction octs with
  | nil =>
    intro ips h
    simp only [parse_targets] at h
    cases h
    rfl
  | cons i rest ih =>
    intro ips h
    unfold parse_targets at h
    cases hp : ipv4_from_str (ip_str sub i) with
    | none => rw [hp] at h; simp at h
    | some a =>
      rw [hp] at h
      cases hr : parse_targets sub rest with
      | error e => rw [hr] at h; simp at h
      | ok l =>
        rw [hr] at h
        simp only [Except.ok.injEq] at h
        subst h
        simp only [List.map_cons, List.cons.injEq]
        exact ⟨ipv4_from_str_o4 sub i a hp, ih l hr⟩

/-- A successful `parse_targets` is pointwise successful parsing. -/
theorem parse_targets_err_iff (sub : List Char) :
    ∀ octs : List Nat,
      (∃ e, parse_targets sub octs = .error e) ↔
        ∃ i ∈ octs, ipv4_from_str (ip_str sub i) = none := by
  intro octs
  induction octs with
  | nil => simp [parse_targets]
  | cons i rest ih =>
    unfold parse_targets
    cases hp : ipv4_from_str (ip_str sub i) with
    | none => simp [hp]
    | some a =>
      cases hr : parse_targets sub rest with
      | error e =>
        simp only [Except.error.injEq]
        constructor
        · intro _
          obtain ⟨j, hj, hjp⟩ := (ih).mp ⟨e, hr⟩
          exact ⟨j, by simp [hj], hjp⟩
        · intro _
          exact ⟨e, rfl⟩
      | ok l =>
        constructor
        · rintro ⟨e, he⟩
          simp at he
        · rintro ⟨j, hj, hjp⟩
          rcases List.mem_cons.mp hj with rfl | hjr
          · rw [hp] at hjp; simp at hjp
          · obtain ⟨e, he⟩ := (ih).mpr ⟨j, hjr, hjp⟩
            rw [he] at hr
            simp at hr

/-- Awaiting tasks that all completed normally yields their results. -/
theorem collect_join_map_some :
    ∀ l : List ScanResult, collect_join (l.map some) = .ok l := by
  intro l
  induction l with
  | nil => rfl
  | cons r rest ih => simp [collect_join, ih]

/-- Awaiting errors exactly when some task panicked. -/
theorem collect_join_err_iff :
    ∀ l : List (Option ScanResult), (∃ e, collect_join l = .error e) ↔ none ∈ l := by
  intro l
  induction l with
  | nil => simp [collect_join]
  | cons o rest ih =>
    cases o with
    | none => simp [collect_join]
    | some r =>
      simp only [collect_join, List.mem_cons]
      cases hr : collect_join rest with
      | error e =>
        simp only []
        constructor
        · intro _
          right
          exact ih.mp ⟨e, hr⟩
        · intro _
          exact ⟨e, rfl⟩
      | ok l' =>
        constructor
        · rintro ⟨e, he⟩
          simp at he
        · rintro (hc | hm)
          · exact absurd hc.symm (Option.some_ne_none r)
          · obtain ⟨e, he⟩ := ih.mpr hm
            rw [he] at hr
            simp at hr

/-- The sorted output is a permutation of the collected results. -/
theorem sort_by_ip_perm (rs : List ScanResult) : (sort_by_ip rs).Perm rs :=
  List.perm_insertionSort _ _

/-- The output of the final sort is sorted by ascending address. -/
theorem sort_by_ip_sorted (rs : List ScanResult) : List.Sorted result_le (sort_by_ip rs) :=
  List.sorted_insertionSort _ _

/-- With a non-empty port list the probe never panics and runs the port
loop. -/
theorem test_host_some (net : Net) (cfg : Config) (hports : cfg.ports ≠ []) (ip : Ipv4) :
    test_host net cfg ip = some (test_host_go net ip 0 cfg.ports) := by
  have h : cfg.ports.isEmpty = false := by
    rw [Bool.eq_false_iff]
    intro hc
    exact hports (List.isEmpty_iff.mp hc)
  rw [test_host, h]
  simp

/-- With successful parsing and a non-empty port list, `scan` returns the
sorted probe results of the parsed targets. -/
theorem scan_ok_of (net : Net) (cfg : Config) (ips : List Ipv4)
    (hports : cfg.ports ≠ [])
    (hpt : parse_targets cfg.subnet (octets cfg) = .ok ips) :
    scan net cfg =
      .ok (sort_by_ip (ips.map (fun ip => test_host_go net ip 0 cfg.ports))) := by
  unfold scan
  rw [hpt]
  dsimp only
  have hmap : ips.map (test_host net cfg) =
      (ips.map (fun ip => test_host_go net ip 0 cfg.ports)).map some := by
    rw [List.map_map]
    exact List.map_congr_left (fun a _ => test_host_some net cfg hports a)
  rw [hmap, collect_join_map_some]

/-- With successful parsing and a non-empty port list,
`scan_with_progress` returns the sorted, reordered probe results. -/
theorem scan_with_progress_ok (net : Net) (order : List ScanResult → List ScanResult)
    (cfg : Config) (ips : List Ipv4) (hports : cfg.ports ≠ [])
    (hpt : parse_targets cfg.subnet (octets cfg) = .ok ips) :
    scan_with_progress net order cfg =
      .ok (sort_by_ip (order (ips.map (fun ip => test_host_go net ip 0 cfg.ports)))) := by
  unfold scan_with_progress
  rw [hpt]
  dsimp only
  have hmap : ips.map (test_host net cfg) =
      (ips.map (fun ip => test_host_go net ip 0 cfg.ports)).map some := by
    rw [List.map_map]
    exact List.map_congr_left (fun a _ => test_host_some net cfg hports a)
  rw [hmap]
  congr 1
  rw [List.filterMap_map]
  simp

/-- With a non-empty port list, `scan_hosts` returns the sorted probe
results of the given hosts. -/
theorem scan_hosts_ok (net : Net) (cfg : Config) (hosts : List Ipv4)
    (hports : cfg.ports ≠ []) :
    scan_hosts net cfg hosts =
      .ok (sort_by_ip (hosts.map (fun ip => test_host_go net ip 0 cfg.ports))) := by
  unfold scan_hosts
  have hmap : hosts.map (test_host net cfg) =
      (hosts.map (fun ip => test_host_go net ip 0 cfg.ports)).map some := by
    rw [List.map_map]
    exact List.map_congr_left (fun a _ => test_host_some net cfg hports a)
  rw [hmap, collect_join_map_some]

/-- Whenever `scan` succeeds, its output came through the final sort. -/
theorem scan_ok_sorted (net : Net) (cfg : Config) (res : List ScanResult)
    (h : scan net cfg = .ok res) : List.Sorted result_le res := by
  unfold scan at h
  cases hpt : parse_targets cfg.subnet (octets cfg) with
  | error e => rw [hpt] at h; cases h
  | ok ips =>
    rw [hpt] at h
    dsimp only at h
    cases hcj : collect_join (ips.map (test_host net cfg)) with
    | error e => rw [hcj] at h; cases h
    | ok rs =>
      rw [hcj] at h
      simp only [Except.ok.injEq] at h
      rw [← h]
      exact sort_by_ip_sorted rs

/-- Whenever `scan_with_progress` succeeds, its output came through the
final sort. -/
theorem scan_with_progress_ok_sorted (net : Net) (order : List ScanResult → List ScanResult)
    (cfg : Config) (res : List ScanResult)
    (h : scan_with_progress net order cfg = .ok res) : List.Sorted result_le res := by
  unfold scan_with_progress at h
  cases hpt : parse_targets cfg.subnet (octets cfg) with
  | error e => rw [hpt] at h; cases h
  | ok ips =>
    rw [hpt] at h
    dsimp only at h
    simp only [Except.ok.injEq] at h
    rw [← h]
    exact sort_by_ip_sorted _

/-- Whenever `scan_hosts` succeeds, its output came through the final
sort. -/
theorem scan_hosts_ok_sorted (net : Net) (cfg : Config) (hosts : List Ipv4)
    (res : List ScanResult) (h : scan_hosts net cfg hosts = .ok res) :
    List.Sorted result_le res := by
  unfold scan_hosts at h
  cases hcj : collect_join (hosts.map (test_host net cfg)) with
  | error e => rw [hcj] at h; cases h
  | ok rs =>
    rw [hcj] at h
    simp only [Except.ok.injEq] at h
    rw [← h]
    exact sort_by_ip_sorted rs

/-- Under the scanner invariant (round-trip time set exactly when alive),
summing the set round-trip times over all results is the same as summing
over the alive ones. -/
theorem filterMap_rtt_filter (rs : List ScanResult)
    (hinv : ∀ r ∈ rs, r.rtt.isSome = r.alive) :
    rs.filterMap (·.rtt) = (rs.filter (·.alive)).filterMap (·.rtt) := by
  induction rs with
  | nil => rfl
  | cons r rest ih =>
    have hr := hinv r (by simp)
    have ih' := ih (fun x hx => hinv x (by simp [hx]))
    cases ha : r.alive with
    | true => simp [List.filter_cons, ha, List.filterMap_cons, ih']
    | false =>
      have hnone : r.rtt = none := by
        rw [ha] at hr
        cases hrtt : r.rtt with
        | none => rfl
        | some v => rw [hrtt] at hr; simp at hr
      simp [List.filter_cons, ha, List.filterMap_cons, hnone, ih']

/-! ## Lemmas about the scheduler model -/

/-- Effect of updating one task's phase on a phase count. -/
theorem countP_set (p : Phase → Bool) :
    ∀ (l : List Phase) (k : Nat) (x y : Phase), l[k]? = some y →
      (l.set k x).countP p + (if p y then 1 else 0) =
        l.countP p + (if p x then 1 else 0) := by
  intro l
  induction l with
  | nil => intro k x y h; simp at h
  | cons a as ih =>
    intro k x y h
    cases k with
    | zero =>
      simp only [List.getElem?_cons_zero, Option.some.injEq] at h
      subst h
      simp only [List.set_cons_zero, List.countP_cons]
      omega
    | succ k' =>
      simp only [List.getElem?_cons_succ] at h
      simp only [List.set_cons_succ, List.countP_cons]
      have := ih k' x y h
      omega

/-- Semaphore invariant: free permits plus held permits always equal the
configured limit. -/
theorem sched_invariant (cfg : Config) (m : Nat) :
    ∀ s, SchedReachable cfg m s →
      s.permits + s.tasks.countP holds_permit = cfg.max_concurrent := by
  intro s hr
  induction hr with
  | init =>
    simp only [List.countP_replicate]
    simp [holds_permit]
  | step hr' hstep ih =>
    cases hstep with
    | acquire p l k hk =>
      have hcount := countP_set holds_permit l k .acquired .pending hk
      simp [holds_permit] at hcount
      simp only at ih ⊢
      omega
    | enter_probe p l k hk =>
      have hcount := countP_set holds_permit l k .probing .acquired hk
      simp [holds_permit] at hcount
      simp only at ih ⊢
      omega
    | exit_probe p l k hk =>
      have hcount := countP_set holds_permit l k .bookkeeping .probing hk
      simp [holds_permit] at hcount
      simp only at ih ⊢
      omega
    | release p l k hk =>
      have hcount := countP_set holds_permit l k .finished .bookkeeping hk
      simp [holds_permit] at hcount
      simp only at ih ⊢
      omega

/-- A task inside `test_host` holds a permit. -/
theorem probing_count_le_holders (s : SchedState) :
    probing_count s ≤ s.tasks.countP holds_permit := by
  apply List.countP_mono_left
  intro x _ hx
  cases x <;> simp_all [in_probe, holds_permit]

/-! ## The claims -/

/-- Claim C1: at every instant during a scan, the number of probes that
have started `test_host` but not yet finished it never exceeds the
configured `max_concurrent`, for every configuration with
`max_concurrent ≥ 1`: in every scheduler state reachable from the start
of a scan that spawned `m` probe tasks, at most `max_concurrent` tasks
are in the probing phase. -/
theorem claim_C1_probe_concurrency_bound (cfg : Config) (m : Nat) (s : SchedState)
    (hN : 1 ≤ cfg.max_concurrent) (hr : SchedReachable cfg m s) :
    probing_count s ≤ cfg.max_concurrent := by
  have hinv := sched_invariant cfg m s hr
  have hmono := probing_count_le_holders s
  omega

/-- Witness for C1: with a single permit and two spawned tasks, after one
task acquires the permit and enters `test_host`, the bound holds in the
resulting reachable state. -/
theorem claim_C1_witness :
    1 ≤ cfg_serial.max_concurrent ∧
    probing_count ⟨0, [Phase.probing, Phase.pending]⟩ ≤ cfg_serial.max_concurrent := by
  constructor
  · decide
  · apply claim_C1_probe_concurrency_bound cfg_serial 2 _ (by decide)
    exact SchedReachable.step
      (SchedReachable.step SchedReachable.init
        (SchedStep.acquire 0 [Phase.pending, Phase.pending] 0 rfl))
      (SchedStep.enter_probe 0 [Phase.acquired, Phase.pending] 0 rfl)

/-- Claim C2: `test_host` attempts the configured ports in list order
and, at the first attempt whose connection succeeds, stops immediately
and returns alive with exactly that port and the elapsed time since the
probe started; a port later in the list is never reported, even if it
would also accept. -/
theorem claim_C2_first_match_wins (net : Net) (cfg : Config) (ip : Ipv4)
    (j : Nat) (hj : j < cfg.ports.length)
    (hsucc : net.connects ip j (cfg.ports.get ⟨j, hj⟩) = true)
    (hfirst : ∀ k (hk : k < j),
      net.connects ip k (cfg.ports.get ⟨k, Nat.lt_trans hk hj⟩) = false) :
    test_host net cfg ip =
      some ⟨ip, true, some (net.elapsed ip j), some (cfg.ports.get ⟨j, hj⟩)⟩ := by
  have hne : cfg.ports.isEmpty = false := by
    cases hp : cfg.ports with
    | nil => rw [hp] at hj; simp at hj
    | cons a as => simp
  rw [test_host, hne]
  simp only [Bool.false_eq_true, if_false]
  have := test_host_go_first net ip cfg.ports 0 j hj (by simpa using hsucc)
    (fun k hk => by simpa using hfirst k hk)
  rw [this]
  simp

/-- Witness for C2: with ports 22, 80, 443 where attempt zero fails and
all later attempts would succeed, the probe reports port 80 (the first
success), not 443. -/
theorem claim_C2_witness :
    (1 : Nat) < cfg_three_ports.ports.length ∧
    test_host net_second cfg_three_ports ⟨10, 0, 0, 9⟩ =
      some ⟨⟨10, 0, 0, 9⟩, true, some 7, some 80⟩ := by
  refine ⟨by decide, ?_⟩
  exact claim_C2_first_match_wins net_second cfg_three_ports ⟨10, 0, 0, 9⟩ 1
    (by decide) (by decide) (by decide)

/-- Claim C3: every result produced by `test_host` has its optional port
set exactly when it is alive and its optional round-trip time set exactly
when it is alive; a target on which every configured port's attempt fails
yields the dead result with no port and no time. -/
theorem claim_C3_result_invariant (net : Net) (cfg : Config) (ip : Ipv4) (r : ScanResult)
    (h : test_host net cfg ip = some r) :
    r.open_port.isSome = r.alive ∧ r.rtt.isSome = r.alive ∧
    ((∀ k (hk : k < cfg.ports.length),
        net.connects ip k (cfg.ports.get ⟨k, hk⟩) = false) →
      r = ⟨ip, false, none, none⟩) := by
  rw [test_host] at h
  by_cases hp : cfg.ports.isEmpty = true
  · rw [if_pos hp] at h
    cases h
  · rw [if_neg hp] at h
    have hr : r = test_host_go net ip 0 cfg.ports := by
      injection h with h'
      exact h'.symm
    subst hr
    refine ⟨(test_host_go_fields net ip 0 cfg.ports).1,
      (test_host_go_fields net ip 0 cfg.ports).2, ?_⟩
    intro hall
    apply test_host_go_all_fail
    intro k hk
    simpa using hall k hk

/-- Witness for C3: on a network that never accepts, the probe of one
target returns the dead result, whose fields satisfy the invariant. -/
theorem claim_C3_witness :
    (test_host net_none cfg_small ⟨10, 0, 0, 1⟩ =
      some ⟨⟨10, 0, 0, 1⟩, false, none, none⟩) ∧
    (⟨⟨10, 0, 0, 1⟩, false, none, none⟩ : ScanResult).open_port.isSome =
      (⟨⟨10, 0, 0, 1⟩, false, none, none⟩ : ScanResult).alive := by
  refine ⟨by decide, ?_⟩
  exact (claim_C3_result_invariant net_none cfg_small ⟨10, 0, 0, 1⟩
    ⟨⟨10, 0, 0, 1⟩, false, none, none⟩ (by decide)).1

/-- Claim C10: `test_host` returns a result (rather than panicking on the
per-port-timeout division) exactly when the configured port list is
non-empty, while the public builder accepts any port list, including the
empty one, without validation. -/
theorem claim_C10_empty_ports_panic (net : Net) (cfg : Config) (ip : Ipv4) (ps : List Nat) :
    ((test_host net cfg ip).isSome ↔ cfg.ports ≠ []) ∧ (set_ports cfg ps).ports = ps := by
  refine ⟨?_, rfl⟩
  rw [test_host]
  by_cases hp : cfg.ports.isEmpty = true
  · rw [if_pos hp]
    simp [List.isEmpty_iff.mp hp]
  · rw [if_neg hp]
    simp only [Option.isSome_some, true_iff]
    intro hc
    exact hp (by simp [hc])

/-- Claim C4: for every valid configuration (targets parse, port list
non-empty, start at most end), a scan returns exactly one result per
enumerated target: the output length is the size of the range
`start_ip..=end_ip` (or of the explicit host list for `scan_hosts`), the
multiset of reported addresses is exactly the multiset of targets, and
the enumerated targets are pairwise distinct. -/
theorem claim_C4_exactly_one_result (net : Net) (cfg : Config) (ips : List Ipv4)
    (order : List ScanResult → List ScanResult) (hosts : List Ipv4)
    (hpt : parse_targets cfg.subnet (octets cfg) = .ok ips)
    (hports : cfg.ports ≠ [])
    (hse : cfg.start_ip ≤ cfg.end_ip)
    (horder : ∀ l, (order l).Perm l) :
    (∃ res, scan net cfg = .ok res ∧
      res.length = cfg.end_ip + 1 - cfg.start_ip ∧
      (res.map ScanResult.ip).Perm ips ∧ ips.Nodup) ∧
    (∃ res2, scan_with_progress net order cfg = .ok res2 ∧
      res2.length = cfg.end_ip + 1 - cfg.start_ip ∧
      (res2.map ScanResult.ip).Perm ips) ∧
    (∃ res3, scan_hosts net cfg hosts = .ok res3 ∧
      res3.length = hosts.length ∧ (res3.map ScanResult.ip).Perm hosts) := by
  have hmapids : ∀ l : List Ipv4,
      (l.map (fun ip => test_host_go net ip 0 cfg.ports)).map ScanResult.ip = l := by
    intro l
    rw [List.map_map]
    have hcomp : (ScanResult.ip ∘ fun ip => test_host_go net ip 0 cfg.ports) = id := by
      funext a
      exact test_host_go_ip net a 0 cfg.ports
    rw [hcomp, List.map_id]
  have hlen_ips : ips.length = cfg.end_ip + 1 - cfg.start_ip := by
    have hmap := parse_targets_ok_map cfg.subnet (octets cfg) ips hpt
    have hl : ips.length = (octets cfg).length := by
      rw [← hmap, List.length_map]
    rw [hl, octets, List.length_range']
  have hnodup : ips.Nodup := by
    apply List.Nodup.of_map Ipv4.o4
    rw [parse_targets_ok_map cfg.subnet (octets cfg) ips hpt]
    exact List.nodup_range' _ _
  refine ⟨⟨_, scan_ok_of net cfg ips hports hpt, ?_, ?_, hnodup⟩,
    ⟨_, scan_with_progress_ok net order cfg ips hports hpt, ?_, ?_⟩,
    ⟨_, scan_hosts_ok net cfg hosts hports, ?_, ?_⟩⟩
  · rw [(sort_by_ip_perm _).length_eq, List.length_map, hlen_ips]
  · have h1 := List.Perm.map ScanResult.ip
      (sort_by_ip_perm (ips.map (fun ip => test_host_go net ip 0 cfg.ports)))
    rw [hmapids ips] at h1
    exact h1
  · rw [(sort_by_ip_perm _).length_eq, (horder _).length_eq, List.length_map, hlen_ips]
  · have h1 := List.Perm.map ScanResult.ip
      (sort_by_ip_perm (order (ips.map (fun ip => test_host_go net ip 0 cfg.ports))))
    have h2 := List.Perm.map ScanResult.ip
      (horder (ips.map (fun ip => test_host_go net ip 0 cfg.ports)))
    rw [hmapids ips] at h2
    exact h1.trans h2
  · rw [(sort_by_ip_perm _).length_eq, List.length_map]
  · have h1 := List.Perm.map ScanResult.ip
      (sort_by_ip_perm (hosts.map (fun ip => test_host_go net ip 0 cfg.ports)))
    rw [hmapids hosts] at h1
    exact h1

/-- Witness for C4: scanning octets one to three of subnet string
`10.0.0` yields three results, one per target, with distinct targets. -/
theorem claim_C4_witness :
    parse_targets cfg_small.subnet (octets cfg_small) =
      .ok [⟨10, 0, 0, 1⟩, ⟨10, 0, 0, 2⟩, ⟨10, 0, 0, 3⟩] ∧
    cfg_small.ports ≠ [] ∧
    cfg_small.start_ip ≤ cfg_small.end_ip ∧
    (∃ res, scan net_none cfg_small = .ok res ∧
      res.length = cfg_small.end_ip + 1 - cfg_small.start_ip ∧
      (res.map ScanResult.ip).Perm [⟨10, 0, 0, 1⟩, ⟨10, 0, 0, 2⟩, ⟨10, 0, 0, 3⟩] ∧
      ([⟨10, 0, 0, 1⟩, ⟨10, 0, 0, 2⟩, ⟨10, 0, 0, 3⟩] : List Ipv4).Nodup) := by
  refine ⟨rfl, by decide, by decide, ?_⟩
  exact (claim_C4_exactly_one_result net_none cfg_small
    [⟨10, 0, 0, 1⟩, ⟨10, 0, 0, 2⟩, ⟨10, 0, 0, 3⟩] id [⟨8, 8, 8, 8⟩]
    rfl (by decide) (by decide) (fun l => List.Perm.refl l)).1

/-- Claim C5: whenever `scan`, `scan_with_progress` or `scan_hosts`
returns a result sequence, that sequence is sorted in ascending order of
target address, whatever the completion order `order` of the concurrent
probes was. -/
theorem claim_C5_sorted_output (net : Net) (cfg : Config)
    (order : List ScanResult → List ScanResult) (hosts : List Ipv4)
    (res1 res2 res3 : List ScanResult)
    (h1 : scan net cfg = .ok res1)
    (h2 : scan_with_progress net order cfg = .ok res2)
    (h3 : scan_hosts net cfg hosts = .ok res3) :
    List.Sorted result_le res1 ∧ List.Sorted result_le res2 ∧
      List.Sorted result_le res3 :=
  ⟨scan_ok_sorted net cfg res1 h1,
   scan_with_progress_ok_sorted net order cfg res2 h2,
   scan_hosts_ok_sorted net cfg hosts res3 h3⟩

/-- Witness for C5: the concrete three-target scan returns its report
sorted by address. -/
theorem claim_C5_witness :
    scan net_none cfg_small = .ok dead_small ∧ List.Sorted result_le dead_small := by
  refine ⟨rfl, ?_⟩
  exact (claim_C5_sorted_output net_none cfg_small id [⟨8, 8, 8, 8⟩]
    dead_small dead_small dead_host8 rfl rfl rfl).1

/-- Counterexample to claim C6: the claim asserts that a configuration
with `start_ip > end_ip` makes the scan fail with an `InvalidRange`
error before any probe runs; in the code no such validation exists — the
enumeration is simply empty and `scan` returns an ok empty report. -/
theorem claim_C6_counterexample :
    cfg_reversed.end_ip < cfg_reversed.start_ip ∧
    scan net_none cfg_reversed = .ok [] :=
  ⟨by decide, rfl⟩

/-- Amended claim C6: no range validation is performed anywhere: when
`start_ip > end_ip` the enumerated range is empty and `scan` returns an
ok empty report instead of an error, and the builder stores arbitrary
octet endpoints (such as 0 or 255, outside the claimed 1-254 host range)
unvalidated. -/
theorem claim_C6_no_range_validation (net : Net) (cfg : Config) (s e : Nat)
    (h : cfg.end_ip < cfg.start_ip) :
    scan net cfg = .ok [] ∧
    (ip_range cfg s e).start_ip = s ∧ (ip_range cfg s e).end_ip = e := by
  refine ⟨?_, rfl, rfl⟩
  have hoct : octets cfg = [] := by
    rw [octets]
    have hz : cfg.end_ip + 1 - cfg.start_ip = 0 := by omega
    rw [hz]
    rfl
  unfold scan
  rw [hoct]
  rfl

/-- Witness for the amended C6: a concrete reversed range scans to the
empty report, and the builder accepts the endpoints 9 and 2. -/
theorem claim_C6_witness :
    cfg_reversed.end_ip < cfg_reversed.start_ip ∧
    (scan net_second cfg_reversed = .ok [] ∧
      (ip_range cfg_reversed 9 2).start_ip = 9 ∧
      (ip_range cfg_reversed 9 2).end_ip = 2) :=
  ⟨by decide, claim_C6_no_range_validation net_second cfg_reversed 9 2 (by decide)⟩

/-- Counterexample to claim C7: the claim asserts `scan` errors exactly
when some target string fails to parse; but with an empty port list and
one perfectly parseable target, every probe task panics on the per-port
timeout division and `scan` returns a join error — an error with no
parse failure. -/
theorem claim_C7_counterexample :
    scan net_none cfg_no_ports = .error .joinErr ∧
    (∀ i ∈ octets cfg_no_ports,
      (ipv4_from_str (ip_str cfg_no_ports.subnet i)).isSome) :=
  ⟨rfl, by decide⟩

/-- Amended claim C7: `scan` returns an error exactly when some target
address string fails to parse as an IPv4 address, or when the port list
is empty while at least one target is enumerated (the probe tasks then
panic on the per-port-timeout division and the panic surfaces as a join
error); the network outcome of an individual probe — dead host,
connection error, per-port timeout — never causes the scan to fail,
which is why the condition does not mention the network at all. -/
theorem claim_C7_error_conditions (net : Net) (cfg : Config) :
    (∃ e, scan net cfg = .error e) ↔
      ((∃ i ∈ octets cfg, ipv4_from_str (ip_str cfg.subnet i) = none) ∨
        (cfg.ports = [] ∧ octets cfg ≠ [])) := by
  cases hpt : parse_targets cfg.subnet (octets cfg) with
  | error e =>
    constructor
    · intro _
      exact Or.inl ((parse_targets_err_iff cfg.subnet (octets cfg)).mp ⟨e, hpt⟩)
    · intro _
      refine ⟨e, ?_⟩
      unfold scan
      rw [hpt]
  | ok ips =>
    have hnoerr : ¬ ∃ i ∈ octets cfg, ipv4_from_str (ip_str cfg.subnet i) = none := by
      intro hc
      obtain ⟨e', he'⟩ := (parse_targets_err_iff cfg.subnet (octets cfg)).mpr hc
      rw [hpt] at he'
      cases he'
    have hlen : (octets cfg).length = ips.length := by
      rw [← parse_targets_ok_map cfg.subnet (octets cfg) ips hpt, List.length_map]
    by_cases hports : cfg.ports = []
    · by_cases hoct : octets cfg = []
      · have hips : ips = [] := by
          apply List.eq_nil_of_length_eq_zero
          rw [← hlen, hoct]
          rfl
        subst hips
        constructor
        · rintro ⟨e, he⟩
          unfold scan at he
          rw [hpt] at he
          simp [collect_join] at he
        · rintro (hc | ⟨_, hc⟩)
          · exact absurd hc hnoerr
          · exact absurd hoct hc
      · have hips : ips ≠ [] := by
          intro hc
          apply hoct
          apply List.eq_nil_of_length_eq_zero
          rw [hlen, hc]
          rfl
        obtain ⟨a, rest, rfl⟩ := List.exists_cons_of_ne_nil hips
        constructor
        · intro _
          exact Or.inr ⟨hports, hoct⟩
        · intro _
          refine ⟨.joinErr, ?_⟩
          unfold scan
          rw [hpt]
          have hth : test_host net cfg a = none := by
            simp [test_host, hports]
          dsimp only
          rw [List.map_cons, hth]
          rfl
    · have hok := scan_ok_of net cfg ips hports hpt
      constructor
      · rintro ⟨e, he⟩
        rw [hok] at he
        cases he
      · rintro (hc | ⟨hc, _⟩)
        · exact absurd hc hnoerr
        · exact absurd hc hports

/-- Counterexample to claim C8: `get_stats` sums every result's set
round-trip time, not only the alive entries' ones; on a result set where
a dead entry carries a time (the public struct permits this), the
computed average is not the mean over the alive entries. -/
theorem claim_C8_counterexample :
    (get_stats results_mixed).average_rtt = some 150 ∧
    spec_mean_alive_rtt results_mixed = some 50 ∧
    (get_stats results_mixed).average_rtt ≠ spec_mean_alive_rtt results_mixed :=
  ⟨by decide, by decide, by decide⟩

/-- Amended claim C8: on every non-empty result set whose entries satisfy
the scanner invariant (round-trip time set exactly when alive, as every
`test_host`-produced result does), with `k` alive entries of `n`,
`get_stats` returns total `n`, alive `k`, success rate `100 * k / n`, and
the average over exactly the alive entries' round-trip times, which is
set whenever `k > 0`. -/
theorem claim_C8_stats (rs : List ScanResult) (hne : rs ≠ [])
    (hinv : ∀ r ∈ rs, r.rtt.isSome = r.alive) :
    (get_stats rs).total_hosts = rs.length ∧
    (get_stats rs).alive_hosts = (rs.filter (·.alive)).length ∧
    (get_stats rs).success_rate =
      some (100 * ((rs.filter (·.alive)).length : ℚ) / (rs.length : ℚ)) ∧
    (get_stats rs).average_rtt = spec_mean_alive_rtt rs ∧
    (0 < (rs.filter (·.alive)).length → (get_stats rs).average_rtt.isSome) := by
  have hlen : (rs.length : ℚ) ≠ 0 := by
    rw [Nat.cast_ne_zero]
    intro hc
    exact hne (List.eq_nil_of_length_eq_zero hc)
  refine ⟨rfl, rfl, ?_, ?_, ?_⟩
  · simp only [get_stats, f64_div, hlen, if_neg, ite_false]
    show some ((((rs.filter (·.alive)).length : ℚ) / (rs.length : ℚ)) * 100) =
      some (100 * ((rs.filter (·.alive)).length : ℚ) / (rs.length : ℚ))
    congr 1
    ring
  · simp only [get_stats, spec_mean_alive_rtt]
    rw [filterMap_rtt_filter rs hinv]
  · intro hk
    simp only [get_stats, hk, if_pos]
    simp [hk]

/-- Witness for the amended C8: one alive entry of two with a round-trip
time of ten gives an average over alive entries only. -/
theorem claim_C8_witness :
    results_ok ≠ [] ∧ (∀ r ∈ results_ok, r.rtt.isSome = r.alive) ∧
    (get_stats results_ok).average_rtt = spec_mean_alive_rtt results_ok := by
  refine ⟨by decide, by decide, ?_⟩
  exact (claim_C8_stats results_ok (by decide) (by decide)).2.2.2.1

/-- Claim C9: `get_stats` on the empty result set does not crash: it is a
total function whose value there is zero totals, the defined
division-by-zero sentinel for the success rate (the `f64` NaN produced by
`0.0 / 0.0`, modelled as `none`), and no average round-trip time. -/
theorem claim_C9_empty_stats : get_stats [] = ⟨0, 0, none, none⟩ := by
  simp [get_stats, f64_div]

end AllAliveIPs
